import Mathlib

/-!
Verification of the vision-analysis adapter of the want_to_have_a_pie
repository (src/want_to_have_a_pie/tools/vision_tool.py).

The adapter is one Python class, VisionTool, with three methods:

* VisionTool._get_openai_client : reads OPENAI_API_KEY from the
  environment; raises ValueError when it is absent or empty.
* VisionTool._encode_image : opens the image, converts mode RGBA or P
  to RGB, downscales when the longer side exceeds 2048 px, re-encodes
  as JPEG and base64; any exception in the body is re-raised as a plain
  Exception with the message "Failed to encode image: " followed by the
  original message.
* VisionTool._run : checks file existence, substitutes a default prompt
  when none (or an empty string) is given, encodes the image, builds a
  single user message with the prompt text and a base64 data URI,
  calls the model, and returns the response content or the fallback
  string.  The whole body is wrapped in try/except: AuthenticationError
  and RateLimitError map to fixed strings, and every other exception e
  (ValueError included, since ValueError is a subclass of Exception)
  maps to "Error analyzing image: " followed by str(e).

The embedding below is shallow.  Effects of the outside world
(filesystem, environment, PIL decoding, the model API) are a record of
oracles, World; Python exceptions that the adapter can observe are the
inductive PyExc; a Python function that may raise is modelled as a
function into Except PyExc.  The float arithmetic of the resize step is
modelled bit-exactly as IEEE-754 binary64: Python true division of two
ints returns the correctly rounded double of the exact quotient, int
times float converts the int to a double and multiplies with one more
rounding, and the Python int() constructor truncates toward zero.  Each
rounding is round-to-nearest at 53 significant bits with ties to even,
computed here on exact integer fractions (fl64Pair); the model has no
overflow or subnormals, which is faithful for every magnitude an image
dimension can reach (exponents within the binary64 normal range).
-/

/-- Exceptions observable by the adapter.  authError and rateLimitError
stand for openai.AuthenticationError and openai.RateLimitError; the
payload of valueError and genericError is the str() of the exception. -/
inductive PyExc where
  | authError
  | rateLimitError
  | valueError (msg : String)
  | genericError (msg : String)
deriving DecidableEq, Repr

/-- Image as seen by the preprocessor: the PIL mode string and the two
dimensions of img.size = (width, height). -/
structure PILImage where
  mode : String
  width : Nat
  height : Nat
deriving DecidableEq, Repr

/-- The single user message that _run builds: role "user", the prompt
text, and the data URI holding the base64 payload. -/
structure VisionMessage where
  role : String
  text : String
  image_url : String
deriving DecidableEq, Repr

/-- Oracles for the outside world during one _run invocation:
fileExists is os.path.exists; apiKey is os.getenv applied to the
name OPENAI_API_KEY (none when the variable is absent); decodeOutcome
is the body of _encode_image for a given path (ok with the base64
string, or error with the str() of the exception the body raised);
callModel is the chat-completions call (ok with the content field of
the first choice, which Python types as Optional, or error with the
exception raised by the client). -/
structure World where
  fileExists : String → Bool
  apiKey : Option String
  decodeOutcome : String → Except String String
  callModel : VisionMessage → Except PyExc (Option String)

/-- Maximum pixel size of the longer side, vision_tool.py line 46. -/
def max_size : Nat := 2048

/-- Mode-conversion step of _encode_image (lines 42-43): modes RGBA and
P are converted to RGB; every other mode is left as it is. -/
def convertMode (img : PILImage) : PILImage :=
  if img.mode = "RGBA" ∨ img.mode = "P" then { img with mode := "RGB" } else img

/-- Fuel-bounded binary logarithm: log2p fuel n is the floor of log2 n
whenever n is at most fuel (and n is positive).  Written with explicit
fuel so that it is structural recursion and reduces by computation. -/
def log2p : Nat → Nat → Nat
  | 0, _ => 0
  | fuel+1, n => if 2 ≤ n then log2p fuel (n / 2) + 1 else 0

/-- Floor of the binary logarithm of a positive natural number. -/
def nlog2 (n : Nat) : Nat := log2p n n

/-- Integer rounding of the fraction a / b to the nearest integer with
ties to even, the rounding direction of IEEE-754 binary64. -/
def rneN (a b : Nat) : Nat :=
  if 2 * (a % b) < b then a / b
  else if b < 2 * (a % b) then a / b + 1
  else if a / b % 2 = 0 then a / b else a / b + 1

/-- Floor of the binary logarithm of the positive fraction a / b. -/
def dlog2 (a b : Nat) : ℤ :=
  let t : ℤ := (nlog2 a : ℤ) - (nlog2 b : ℤ)
  if b * 2^t.toNat ≤ a * 2^((-t).toNat) then t else t - 1

/-- Round the positive fraction a / b to 53 significant bits, the
precision of IEEE-754 binary64, with ties to even: the result is the
pair (n, e) whose value is n * 2 ^ e.  The scaled significand a / b
divided by 2 ^ e lies in the binade of 52-bit to 53-bit integers, and
one of the two powers of two below is 2 ^ 0, so the fraction handed to
rneN equals that scaled significand exactly. -/
def fl64Pair (a b : Nat) : Nat × ℤ :=
  let e : ℤ := dlog2 a b - 52
  (rneN (a * 2^((-e).toNat)) (b * 2^(e.toNat)), e)

/-- Rational value of a dyadic pair (n, e), namely n * 2 ^ e. -/
def dyadic (p : Nat × ℤ) : ℚ := (p.1 : ℚ) * 2^p.2

/-- IEEE-754 binary64 multiplication of two dyadic values: the exact
product n1 * n2 * 2 ^ (e1 + e2), written as an integer fraction, is
rounded once to 53 significant bits. -/
def mulPair (p q : Nat × ℤ) : Nat × ℤ :=
  fl64Pair (p.1 * q.1 * 2^((p.2 + q.2).toNat)) (2^((-(p.2 + q.2)).toNat))

/-- Double-precision value that Python computes for d * (2048 / m) in
line 49: 2048 / m is the correctly rounded double of the exact quotient
(Python true division of ints), the int d becomes the double fl64Pair d 1
(exact for every real dimension), and the multiplication rounds once
more.  2048 is the max_size constant of line 46. -/
def pyProd (d m : Nat) : Nat × ℤ := mulPair (fl64Pair d 1) (fl64Pair 2048 m)

/-- One output dimension of the resize in line 49: int(d * ratio), the
truncation toward zero of the double pyProd d m, which for this
nonnegative value is the floor, computed on the dyadic pair by a shift
or an integer division. -/
def pyDim (d m : Nat) : Nat :=
  if 0 ≤ (pyProd d m).2 then (pyProd d m).1 * 2^((pyProd d m).2.toNat)
  else (pyProd d m).1 / 2^((-(pyProd d m).2).toNat)

/-- Resize step of _encode_image (lines 45-50) on the dimensions.  In
Python: when max(size) > 2048, ratio = 2048 / max(size) in binary64 and
the new size is (int(w * ratio), int(h * ratio)), modelled bit-exactly
by pyDim; otherwise the dimensions are unchanged. -/
def resizeDims (w h : Nat) : Nat × Nat :=
  if max_size < max w h then
    (pyDim w (max w h), pyDim h (max w h))
  else (w, h)

/-- Composition of the two image transformations that _encode_image
performs before JPEG re-encoding: mode conversion, then resize. -/
def encodeImagePipeline (img : PILImage) : PILImage :=
  let c := convertMode img
  let p := resizeDims c.width c.height
  { c with width := p.1, height := p.2 }

/-- Spec-side resize, written from the words of the specification for
comparison with resizeDims: each scaled dimension is rounded to the
NEAREST integer pixel.  roundNearestRatio a b is the nearest integer to
a / b (half rounds up), matching Mathlib round on the rationals. -/
def roundNearestRatio (a b : Nat) : Nat := (2 * a + b) / (2 * b)

/-- Spec-side version of resizeDims from the words of the
specification: both dimensions scaled EXACTLY by the same ratio and
each rounded to the NEAREST integer pixel.  Modelled from the
specification sentence, not from the code; it exists only to be
compared with resizeDims. -/
def resizeDimsSpec (w h : Nat) : Nat × Nat :=
  if max_size < max w h then
    (roundNearestRatio (w * max_size) (max w h), roundNearestRatio (h * max_size) (max w h))
  else (w, h)

/-- Spec-side predicate, written from the words of the specification:
the 3-channel displayable color modes of PIL. -/
def specThreeChannel (m : String) : Bool :=
  m = "RGB" ∨ m = "YCbCr" ∨ m = "HSV" ∨ m = "LAB"

/-- Spec-side predicate, written from the words of the specification:
the alpha-carrying PIL modes. -/
def specAlphaCarrying (m : String) : Bool :=
  m = "RGBA" ∨ m = "LA" ∨ m = "PA" ∨ m = "RGBa" ∨ m = "La"

/-- VisionTool._get_openai_client, lines 29-34: raises ValueError when
the key is absent, and Python truthiness also treats the empty string
as absent. -/
def get_openai_client (key : Option String) : Except PyExc Unit :=
  match key with
  | none => .error (.valueError "OPENAI_API_KEY environment variable is required")
  | some k =>
    if k = "" then .error (.valueError "OPENAI_API_KEY environment variable is required")
    else .ok ()

/-- VisionTool._encode_image, lines 36-59, at the level _run observes:
the body either returns the base64 string or raises, and the except
clause re-raises a plain Exception whose message prepends
"Failed to encode image: " to the original message. -/
def encode_image (w : World) (path : String) : Except PyExc String :=
  match w.decodeOutcome path with
  | .ok b64 => .ok b64
  | .error msg => .error (.genericError ("Failed to encode image: " ++ msg))

/-- Default prompt of _run, lines 79-87 (the adjacent Python string
literals concatenated). -/
def defaultPrompt : String :=
  "Analyze this image and identify all food items visible. For each food item, provide:\n- Descriptive name (suitable for recipe searches)\n- Estimated weight in grams\n- Confidence level (percentage)\n\nFormat as a list like:\n- watermelon chunks: 350g (95% confidence)\n- banana: 120g (90% confidence)\n\nOnly include items where confidence is 90% or higher."

/-- Prompt substitution of _run, line 78: if not prompt, the default is
used; Python falsiness covers both None and the empty string. -/
def promptUsed : Option String → String
  | none => defaultPrompt
  | some s => if s = "" then defaultPrompt else s

/-- Message construction of _run, lines 97-113. -/
def requestMessage (prompt : Option String) (b64 : String) : VisionMessage :=
  ⟨"user", promptUsed prompt, "data:image/jpeg;base64," ++ b64⟩

/-- Fallback of line 126: content or "No response received"; the Python
or-operator also replaces an empty content string. -/
def orFallback : Option String → String
  | none => "No response received"
  | some s => if s = "" then "No response received" else s

/-- Error text of line 75 for a missing file. -/
def notFoundMsg (path : String) : String :=
  "Error: Image file not found at " ++ path

/-- Error text of line 135 for openai.AuthenticationError. -/
def authMsg : String :=
  "Error: Invalid OpenAI API key. Please check your OPENAI_API_KEY environment variable."

/-- Error text of line 137 for openai.RateLimitError. -/
def rateMsg : String :=
  "Error: OpenAI API rate limit exceeded. Please try again later."

/-- Body of the try block of _run, lines 73-132: existence check,
prompt substitution, image encoding, client construction, model call,
fallback.  An error value is an exception reaching the except clauses. -/
def run_body (w : World) (path : String) (prompt : Option String) : Except PyExc String :=
  if w.fileExists path then
    match encode_image w path with
    | .error e => .error e
    | .ok b64 =>
      match get_openai_client w.apiKey with
      | .error e => .error e
      | .ok _ =>
        match w.callModel (requestMessage prompt b64) with
        | .error e => .error e
        | .ok content => .ok (orFallback content)
  else .ok (notFoundMsg path)

/-- VisionTool._run, lines 61-139: the try body together with the three
except clauses.  A result .ok s is the string _run returns; a result
.error e would be an exception propagating to the caller, and no branch
produces one, because except Exception catches every exception the body
can raise (each PyExc constructor stands for a subclass of Exception). -/
def run (w : World) (path : String) (prompt : Option String) : Except PyExc String :=
  match run_body w path prompt with
  | .ok s => .ok s
  | .error .authError => .ok authMsg
  | .error .rateLimitError => .ok rateMsg
  | .error (.valueError m) => .ok ("Error analyzing image: " ++ m)
  | .error (.genericError m) => .ok ("Error analyzing image: " ++ m)

/-- Substring relation on strings, used to state that an error text
carries a given fragment. -/
def containsSub (s pat : String) : Prop := pat.data <:+: s.data

instance (s pat : String) : Decidable (containsSub s pat) := by
  unfold containsSub; infer_instance

/-! Concrete worlds used by witnesses and counterexamples. -/

/-- World in which the file exists, decoding succeeds, the model answers,
but the OPENAI_API_KEY variable is absent. -/
def wNoKey : World :=
  ⟨fun _ => true, none, fun _ => .ok "QUJDRA==", fun _ => .ok (some "ok")⟩

/-- World in which everything is in place but the model call raises
openai.AuthenticationError. -/
def wAuthFail : World :=
  ⟨fun _ => true, some "sk-test", fun _ => .ok "QUJDRA==", fun _ => .error .authError⟩

/-- World in which the requested path does not exist. -/
def wMissingFile : World :=
  ⟨fun _ => false, some "sk-test", fun _ => .ok "QUJDRA==", fun _ => .ok (some "ok")⟩

/-- World in which PIL fails to decode the file. -/
def wBadImage : World :=
  ⟨fun _ => true, some "sk-test", fun _ => .error "cannot identify image file",
   fun _ => .ok (some "ok")⟩

/-- Variant of wMissingFile with the credential removed and hostile
decode and model oracles, used to show that none of them is consulted
when the path does not exist. -/
def wMissingHostile : World :=
  { wMissingFile with apiKey := none, decodeOutcome := (fun _ => .error "boom"), callModel := (fun _ => .error .authError) }

/-! Helper lemmas shared by several developments. -/

/-- Floor-division bound: a is below the successor quotient times the
divisor. -/
theorem lt_succ_quot_mul (a b : Nat) (hb : 0 < b) : a < (a / b + 1) * b := by
  calc a = b * (a / b) + a % b := (Nat.div_add_mod a b).symm
  _ < b * (a / b) + b := Nat.add_lt_add_left (Nat.mod_lt a hb) _
  _ = (a / b + 1) * b := by ring

/-- Two string concatenations differ when the fixed prefixes differ at
index five. -/
theorem append_ne_append_of_data5 (p q a b : String)
    (h5 : 5 < p.data.length) (h5' : 5 < q.data.length)
    (hne : p.data[5]? ≠ q.data[5]?) : p ++ a ≠ q ++ b := by
  intro h
  apply hne
  have hd : (p ++ a).data = (q ++ b).data := by rw [h]
  rw [String.data_append, String.data_append] at hd
  rw [← @List.getElem?_append_left _ p.data a.data 5 h5,
      ← @List.getElem?_append_left _ q.data b.data 5 h5', hd]

/-- The generic per-call error prefix never coincides with a text that
starts with the shorter prefix of the fixed error strings. -/
theorem generic_ne_colon (m m' : String) :
    "Error analyzing image: " ++ m ≠ "Error: " ++ m' := by
  apply append_ne_append_of_data5 <;> decide

/-- A fragment contained in a string is contained in any right
extension of it. -/
theorem containsSub_append_left (s t pat : String) (h : containsSub s pat) :
    containsSub (s ++ t) pat := by
  obtain ⟨u, v, huv⟩ := h
  exact ⟨u, v ++ t.data, by rw [String.data_append, ← huv]; simp⟩

/-- A string contains its own right-hand concatenation argument. -/
theorem containsSub_append_self (s pat : String) : containsSub (s ++ pat) pat :=
  ⟨s.data, [], by rw [String.data_append]; simp⟩

/-- Mode conversion does not change the dimensions. -/
theorem convertMode_dims (img : PILImage) :
    (convertMode img).width = img.width ∧ (convertMode img).height = img.height := by
  unfold convertMode
  split <;> exact ⟨rfl, rfl⟩

/-! Correctness of the binary64 model: each rounding step is within
half an ulp, so the computed product is within a relative error of
three units in 2^53 of the exact proportional value. -/

theorem log2p_bounds : ∀ (fuel n : Nat), 1 ≤ n → n ≤ fuel →
    2^(log2p fuel n) ≤ n ∧ n < 2^(log2p fuel n + 1) := by
  intro fuel
  induction fuel with
  | zero => intro n h1 h2; omega
  | succ fuel ih =>
    intro n h1 h2
    by_cases h : 2 ≤ n
    · have hrec := ih (n / 2) (by omega) (by omega)
      have hstep : log2p (fuel+1) n = log2p fuel (n / 2) + 1 := by
        simp only [log2p]
        rw [if_pos h]
      rw [hstep]
      obtain ⟨hl, hu⟩ := hrec
      constructor
      · calc 2^(log2p fuel (n/2) + 1) = 2 * 2^(log2p fuel (n/2)) := by ring
        _ ≤ 2 * (n / 2) := by omega
        _ ≤ n := by omega
      · calc n ≤ 2 * (n / 2) + 1 := by omega
        _ < 2 * 2^(log2p fuel (n/2) + 1) := by omega
        _ = 2^(log2p fuel (n/2) + 1 + 1) := by ring
    · have hn : n = 1 := by omega
      have hstep : log2p (fuel+1) n = 0 := by
        simp only [log2p]
        rw [if_neg h]
      rw [hstep, hn]
      omega

theorem nlog2_bounds (n : Nat) (h : 1 ≤ n) :
    2^(nlog2 n) ≤ n ∧ n < 2^(nlog2 n + 1) :=
  log2p_bounds n n h le_rfl

theorem cast_two_pow (k : Nat) : ((2^k : Nat) : ℚ) = (2:ℚ)^(k : ℤ) := by
  push_cast
  rw [zpow_natCast]

theorem scaled_frac (a b : Nat) (hb : 0 < b) (e : ℤ) :
    ((a * 2^((-e).toNat) : Nat) : ℚ) / ((b * 2^(e.toNat) : Nat) : ℚ)
      = ((a:ℚ)/(b:ℚ)) * (2:ℚ)^(-e) := by
  rcases le_or_lt 0 e with he | he
  · have h1 : (-e).toNat = 0 := by omega
    have h2 : ((e.toNat : ℤ)) = e := Int.toNat_of_nonneg he
    rw [h1]
    push_cast
    have hp : (2:ℚ) ^ (-e) = ((2:ℚ) ^ e.toNat)⁻¹ := by
      rw [← zpow_natCast (2:ℚ) e.toNat, h2, zpow_neg]
    rw [mul_one, hp, div_mul_eq_div_div, div_eq_mul_inv]
  · have h1 : e.toNat = 0 := by omega
    have h2 : (((-e).toNat : ℤ)) = -e := Int.toNat_of_nonneg (by omega)
    rw [h1]
    push_cast
    have hp : (2:ℚ) ^ (-e) = (2:ℚ) ^ ((-e).toNat) := by
      rw [← zpow_natCast (2:ℚ) ((-e).toNat), h2]
    rw [mul_one, hp, mul_div_right_comm]

theorem dlog2_cond (a b : Nat) (hb : 0 < b) (t : ℤ) :
    (b * 2^t.toNat ≤ a * 2^((-t).toNat)) ↔ (2:ℚ)^t ≤ (a:ℚ)/b := by
  have hb0 : (0:ℚ) < (b:ℚ) := by exact_mod_cast hb
  rw [le_div_iff hb0]
  rcases le_or_lt 0 t with ht | ht
  · have h1 : (-t).toNat = 0 := by omega
    have h2 : ((t.toNat : ℤ)) = t := Int.toNat_of_nonneg ht
    rw [h1, ← h2, zpow_natCast]
    rw [pow_zero, mul_one]
    constructor
    · intro h
      have hc : ((b * 2^t.toNat : Nat) : ℚ) ≤ (a : ℚ) := by exact_mod_cast h
      push_cast at hc
      linarith [hc]
    · intro h
      have hc : ((b * 2^t.toNat : Nat) : ℚ) ≤ (a : ℚ) := by push_cast; linarith [h]
      exact_mod_cast hc
  · have h1 : t.toNat = 0 := by omega
    have h2 : (((-t).toNat : ℤ)) = -t := Int.toNat_of_nonneg (by omega)
    rw [h1]
    rw [pow_zero, mul_one]
    have hpow : (0:ℚ) < (2:ℚ)^(-t) := by positivity
    have h2t : (0:ℚ) < (2:ℚ)^t := by positivity
    have hcancel : (2:ℚ)^t * (2:ℚ)^(-t) = 1 := by
      rw [← zpow_add₀ (by norm_num : (2:ℚ) ≠ 0)]
      simp
    constructor
    · intro h
      have hQ : (b : ℚ) ≤ (a : ℚ) * (2:ℚ)^(-t) := by
        have hc : ((b : Nat) : ℚ) ≤ ((a * 2^((-t).toNat) : Nat) : ℚ) := by exact_mod_cast h
        push_cast at hc
        rw [← h2, zpow_natCast]
        linarith [hc]
      nlinarith [hQ, h2t, hcancel]
    · intro h
      have hQ : (b : ℚ) ≤ (a : ℚ) * (2:ℚ)^(-t) := by
        nlinarith [h, hpow, hcancel]
      have hc : ((b : Nat) : ℚ) ≤ ((a * 2^((-t).toNat) : Nat) : ℚ) := by
        push_cast
        rw [← h2, zpow_natCast] at hQ
        linarith [hQ]
      exact_mod_cast hc

theorem dlog2_bounds (a b : Nat) (ha : 0 < a) (hb : 0 < b) :
    (2:ℚ)^(dlog2 a b) ≤ (a:ℚ)/b ∧ (a:ℚ)/b < (2:ℚ)^(dlog2 a b + 1) := by
  obtain ⟨hal, hau⟩ := nlog2_bounds a ha
  obtain ⟨hbl, hbu⟩ := nlog2_bounds b hb
  have hb0 : (0:ℚ) < (b:ℚ) := by exact_mod_cast hb
  have ha0 : (0:ℚ) < (a:ℚ) := by exact_mod_cast ha
  set la := nlog2 a with hla
  set lb := nlog2 b with hlb
  set t : ℤ := (la : ℤ) - (lb : ℤ) with ht
  have haQ1 : (2:ℚ)^((la:ℤ)) ≤ (a:ℚ) := by
    rw [← cast_two_pow]; exact_mod_cast hal
  have haQ2 : (a:ℚ) < (2:ℚ)^((la:ℤ)+1) := by
    have he : ((la:ℤ)+1) = ((la+1 : Nat) : ℤ) := by push_cast; ring
    rw [he, ← cast_two_pow]; exact_mod_cast hau
  have hbQ1 : (2:ℚ)^((lb:ℤ)) ≤ (b:ℚ) := by
    rw [← cast_two_pow]; exact_mod_cast hbl
  have hbQ2 : (b:ℚ) < (2:ℚ)^((lb:ℤ)+1) := by
    have he : ((lb:ℤ)+1) = ((lb+1 : Nat) : ℤ) := by push_cast; ring
    rw [he, ← cast_two_pow]; exact_mod_cast hbu
  have hupper : (a:ℚ)/b < (2:ℚ)^(t+1) := by
    have h2 : (2:ℚ)^(t+1) = (2:ℚ)^((la:ℤ)+1) / (2:ℚ)^((lb:ℤ)) := by
      rw [← zpow_sub₀ (by norm_num : (2:ℚ) ≠ 0)]
      congr 1
      omega
    rw [h2, div_lt_div_iff hb0 (by positivity)]
    calc (a:ℚ) * (2:ℚ)^((lb:ℤ)) ≤ (a:ℚ) * (b:ℚ) := by nlinarith [hbQ1, ha0]
    _ < (2:ℚ)^((la:ℤ)+1) * (b:ℚ) := by nlinarith [haQ2, hb0]
  have hlower : (2:ℚ)^(t-1) < (a:ℚ)/b := by
    have h2 : (2:ℚ)^(t-1) = (2:ℚ)^((la:ℤ)) / (2:ℚ)^((lb:ℤ)+1) := by
      rw [← zpow_sub₀ (by norm_num : (2:ℚ) ≠ 0)]
      congr 1
      omega
    rw [h2, div_lt_div_iff (by positivity) hb0]
    calc (2:ℚ)^((la:ℤ)) * (b:ℚ) ≤ (a:ℚ) * (b:ℚ) := by nlinarith [haQ1, hb0]
    _ < (a:ℚ) * (2:ℚ)^((lb:ℤ)+1) := by nlinarith [hbQ2, ha0]
  have hd : dlog2 a b = if b * 2^t.toNat ≤ a * 2^((-t).toNat) then t else t - 1 := by
    simp only [dlog2]
  by_cases hc : b * 2^t.toNat ≤ a * 2^((-t).toNat)
  · rw [hd, if_pos hc]
    exact ⟨(dlog2_cond a b hb t).mp hc, hupper⟩
  · rw [hd, if_neg hc]
    have hlt : (a:ℚ)/b < (2:ℚ)^t := lt_of_not_le (fun h => hc ((dlog2_cond a b hb t).mpr h))
    constructor
    · exact le_of_lt hlower
    · have he : t - 1 + 1 = t := by omega
      rw [he]
      exact hlt

theorem rneN_err (a b : Nat) (hb : 0 < b) :
    |((rneN a b : Nat) : ℚ) - (a:ℚ)/b| ≤ 1/2 := by
  have hb0 : (0:ℚ) < (b:ℚ) := by exact_mod_cast hb
  have hmod : b * (a / b) + (a % b) = a := Nat.div_add_mod a b
  have hfracQ : (b:ℚ) * ((a/b : Nat):ℚ) + ((a % b : Nat):ℚ) = (a:ℚ) := by exact_mod_cast hmod
  have hfrac : (a:ℚ)/b = ((a/b : Nat):ℚ) + ((a % b : Nat):ℚ)/b := by
    rw [div_eq_iff (ne_of_gt hb0)]
    rw [add_mul, div_mul_cancel₀ _ (ne_of_gt hb0)]
    rw [← hfracQ]
    ring
  rcases lt_trichotomy (2 * (a % b)) b with h1 | h1 | h1
  · have hv : rneN a b = a / b := by
      unfold rneN
      rw [if_pos h1]
    have hsmall : ((a % b : Nat):ℚ)/b < 1/2 := by
      rw [div_lt_iff hb0]
      have hcast : ((2 * (a % b) : Nat) : ℚ) < (b:ℚ) := by exact_mod_cast h1
      push_cast at hcast
      linarith
    have hnn : (0:ℚ) ≤ ((a % b : Nat):ℚ)/b := by positivity
    rw [hv, hfrac, abs_le]
    constructor <;> linarith
  · have hhalf : ((a % b : Nat):ℚ)/b = 1/2 := by
      rw [div_eq_iff (ne_of_gt hb0)]
      have hcast : ((2 * (a % b) : Nat) : ℚ) = (b:ℚ) := by exact_mod_cast h1
      push_cast at hcast
      linarith
    have hv : rneN a b = a / b ∨ rneN a b = a / b + 1 := by
      unfold rneN
      rw [if_neg (by omega), if_neg (by omega)]
      by_cases hpar : a / b % 2 = 0
      · rw [if_pos hpar]; left; rfl
      · rw [if_neg hpar]; right; rfl
    rcases hv with hv | hv <;>
      · rw [hv, hfrac]
        push_cast
        rw [abs_le]
        constructor <;> linarith
  · have hv : rneN a b = a / b + 1 := by
      unfold rneN
      rw [if_neg (by omega), if_pos h1]
    have hbig : 1/2 < ((a % b : Nat):ℚ)/b := by
      rw [lt_div_iff hb0]
      have hcast : (b:ℚ) < ((2 * (a % b) : Nat) : ℚ) := by exact_mod_cast h1
      push_cast at hcast
      linarith
    have hlt : ((a % b : Nat):ℚ)/b < 1 := by
      rw [div_lt_one hb0]
      exact_mod_cast Nat.mod_lt a hb
    rw [hv, hfrac]
    push_cast
    rw [abs_le]
    constructor <;> linarith

theorem fl64Pair_err (a b : Nat) (ha : 0 < a) (hb : 0 < b) :
    |dyadic (fl64Pair a b) - (a:ℚ)/b| ≤ ((a:ℚ)/b)/2^53 := by
  obtain ⟨hL1, hL2⟩ := dlog2_bounds a b ha hb
  set L := dlog2 a b with hLdef
  set e : ℤ := L - 52 with hedef
  have hfp : fl64Pair a b = (rneN (a * 2^((-e).toNat)) (b * 2^(e.toNat)), e) := rfl
  have hb2 : 0 < b * 2^(e.toNat) := by positivity
  have herr := rneN_err (a * 2^((-e).toNat)) (b * 2^(e.toNat)) hb2
  rw [scaled_frac a b hb e] at herr
  set n := rneN (a * 2^((-e).toNat)) (b * 2^(e.toNat)) with hndef
  have hdy : dyadic (fl64Pair a b) = (n:ℚ) * 2^e := by rw [hfp]; rfl
  have h2e : (0:ℚ) < (2:ℚ)^e := by positivity
  have hcancel : ((a:ℚ)/b) * 2^(-e) * 2^e = (a:ℚ)/b := by
    rw [mul_assoc, ← zpow_add₀ (by norm_num : (2:ℚ) ≠ 0)]
    simp
  have hkey : |(n:ℚ) - ((a:ℚ)/b) * 2^(-e)| * 2^e = |(n:ℚ) * 2^e - (a:ℚ)/b| := by
    conv_lhs => rw [← abs_of_pos h2e]
    rw [← abs_mul, sub_mul, hcancel]
  rw [hdy, ← hkey]
  have hle : |(n:ℚ) - ((a:ℚ)/b) * 2^(-e)| * 2^e ≤ (1/2) * 2^e :=
    mul_le_mul_of_nonneg_right herr (le_of_lt h2e)
  have hhalf : (1/2 : ℚ) * 2^e = 2^(e-1) := by
    rw [zpow_sub_one₀ (by norm_num : (2:ℚ) ≠ 0)]
    ring
  have hfin : (2:ℚ)^(e-1) ≤ ((a:ℚ)/b)/2^53 := by
    have h1 : (2:ℚ)^(e-1) = (2:ℚ)^L * (2:ℚ)^(-(53:ℤ)) := by
      rw [← zpow_add₀ (by norm_num : (2:ℚ) ≠ 0)]
      congr 1
      omega
    have h2 : (2:ℚ)^(-(53:ℤ)) = ((2:ℚ)^(53:Nat))⁻¹ := by
      norm_num [zpow_neg]
    have h3 : (0:ℚ) < ((2:ℚ)^(53:Nat))⁻¹ := by positivity
    rw [h1, h2, div_eq_mul_inv]
    exact mul_le_mul_of_nonneg_right hL1 (le_of_lt h3)
  calc |(n:ℚ) - ((a:ℚ)/b) * 2^(-e)| * 2^e ≤ (1/2) * 2^e := hle
  _ = 2^(e-1) := hhalf
  _ ≤ ((a:ℚ)/b)/2^53 := hfin

theorem fl64Pair_bounds (a b : Nat) (ha : 0 < a) (hb : 0 < b) :
    (a:ℚ)/b - ((a:ℚ)/b)/2^53 ≤ dyadic (fl64Pair a b) ∧
    dyadic (fl64Pair a b) ≤ (a:ℚ)/b + ((a:ℚ)/b)/2^53 := by
  have h := fl64Pair_err a b ha hb
  rw [abs_le] at h
  constructor <;> linarith [h.1, h.2]

theorem dyadic_fl64Pair_pos (a b : Nat) (ha : 0 < a) (hb : 0 < b) :
    0 < dyadic (fl64Pair a b) := by
  have h := (fl64Pair_bounds a b ha hb).1
  have hx : (0:ℚ) < (a:ℚ)/b := by positivity
  nlinarith [h, hx]

theorem fst_pos_of_dyadic_pos (p : Nat × ℤ) (h : 0 < dyadic p) : 0 < p.1 := by
  by_contra hc
  have h0 : p.1 = 0 := by omega
  unfold dyadic at h
  rw [h0] at h
  simp at h

theorem mulPair_frac (p q : Nat × ℤ) :
    ((p.1 * q.1 * 2^((p.2 + q.2).toNat) : Nat) : ℚ) / ((2^((-(p.2 + q.2)).toNat) : Nat) : ℚ)
      = dyadic p * dyadic q := by
  have h := scaled_frac (p.1 * q.1) 1 one_pos (-(p.2 + q.2))
  simp only [neg_neg, one_mul] at h
  rw [h]
  unfold dyadic
  push_cast
  rw [zpow_add₀ (by norm_num : (2:ℚ) ≠ 0)]
  ring

theorem mulPair_err (p q : Nat × ℤ) (hp : 0 < p.1) (hq : 0 < q.1) :
    |dyadic (mulPair p q) - dyadic p * dyadic q| ≤ (dyadic p * dyadic q)/2^53 := by
  have h := fl64Pair_err (p.1 * q.1 * 2^((p.2 + q.2).toNat)) (2^((-(p.2 + q.2)).toNat))
    (by positivity) (by positivity)
  rw [mulPair_frac p q] at h
  exact h

theorem pyProd_close (d m : Nat) (hd : 0 < d) (hm : 2048 < m) (hdm : d ≤ m) :
    |dyadic (pyProd d m) - (d:ℚ) * 2048 / m| ≤ 1/2^40 := by
  have hm0 : (0:ℚ) < (m:ℚ) := by exact_mod_cast (by omega : 0 < m)
  have hd0 : (0:ℚ) < (d:ℚ) := by exact_mod_cast hd
  have hdm2 : (d:ℚ) ≤ (m:ℚ) := by exact_mod_cast hdm
  have hA_err := fl64Pair_bounds d 1 hd one_pos
  simp only [Nat.cast_one, div_one] at hA_err
  have hB_err := fl64Pair_bounds 2048 m (by norm_num) (by omega)
  push_cast at hB_err
  have hApos : 0 < dyadic (fl64Pair d 1) := dyadic_fl64Pair_pos d 1 hd one_pos
  have hBpos : 0 < dyadic (fl64Pair 2048 m) := dyadic_fl64Pair_pos 2048 m (by norm_num) (by omega)
  set A := dyadic (fl64Pair d 1) with hAdef
  set B := dyadic (fl64Pair 2048 m) with hBdef
  set c : ℚ := (2048:ℚ)/(m:ℚ) with hcdef
  have hc0 : (0:ℚ) < c := by rw [hcdef]; positivity
  have hp1 : 0 < (fl64Pair d 1).1 := fst_pos_of_dyadic_pos _ hApos
  have hp2 : 0 < (fl64Pair 2048 m).1 := fst_pos_of_dyadic_pos _ hBpos
  have hAB_err := mulPair_err (fl64Pair d 1) (fl64Pair 2048 m) hp1 hp2
  rw [abs_le] at hAB_err
  have hPP : dyadic (pyProd d m) = dyadic (mulPair (fl64Pair d 1) (fl64Pair 2048 m)) := rfl
  set V := dyadic (mulPair (fl64Pair d 1) (fl64Pair 2048 m)) with hVdef
  have hcm : c * (m:ℚ) = 2048 := by
    rw [hcdef]
    field_simp
  have hX2048 : (d:ℚ) * c ≤ 2048 := by
    have h1 : (d:ℚ) * c * (m:ℚ) ≤ 2048 * (m:ℚ) := by
      rw [mul_assoc, mul_comm c, ← mul_assoc, ← hcm]
      nlinarith [hdm2, hc0, hcm]
    nlinarith [h1, hm0]
  have hXpos : 0 < (d:ℚ) * c := by positivity
  have f1 : A * B ≤ ((d:ℚ) + (d:ℚ)/2^53) * (c + c/2^53) :=
    mul_le_mul hA_err.2 hB_err.2 hBpos.le (by positivity)
  have hcl : 0 ≤ c - c/2^53 := by nlinarith [hc0]
  have f2 : ((d:ℚ) - (d:ℚ)/2^53) * (c - c/2^53) ≤ A * B :=
    mul_le_mul hA_err.1 hB_err.1 hcl hApos.le
  have hXeq : (d:ℚ) * 2048 / m = (d:ℚ) * c := by
    rw [hcdef, mul_div_assoc]
  have hU1 : ((d:ℚ) + (d:ℚ)/2^53) * (c + c/2^53)
      = (d:ℚ)*c + ((d:ℚ)*c)*(2/2^53) + ((d:ℚ)*c)*(1/2^106) := by ring
  have hU2 : ((d:ℚ) - (d:ℚ)/2^53) * (c - c/2^53)
      = (d:ℚ)*c - ((d:ℚ)*c)*(2/2^53) + ((d:ℚ)*c)*(1/2^106) := by ring
  rw [hU1] at f1
  rw [hU2] at f2
  rw [hPP, hXeq, abs_le]
  constructor
  · linarith [f2, hAB_err.1, hX2048, hXpos]
  · linarith [f1, hAB_err.2, hX2048, hXpos]

theorem pyDim_floor (d m : Nat) :
    ((pyDim d m : Nat) : ℚ) ≤ dyadic (pyProd d m) ∧
    dyadic (pyProd d m) < ((pyDim d m : Nat) : ℚ) + 1 := by
  set p := pyProd d m with hp
  have hval : pyDim d m = if 0 ≤ p.2 then p.1 * 2^(p.2.toNat) else p.1 / 2^((-p.2).toNat) := rfl
  rcases le_or_lt 0 p.2 with he | he
  · rw [hval, if_pos he]
    have heq : ((p.1 * 2^(p.2.toNat) : Nat) : ℚ) = dyadic p := by
      unfold dyadic
      push_cast
      congr 1
      rw [← zpow_natCast (2:ℚ) p.2.toNat, Int.toNat_of_nonneg he]
    rw [heq]
    exact ⟨le_refl _, lt_add_one _⟩
  · rw [hval, if_neg (not_le.mpr he)]
    set k := (-p.2).toNat with hk
    have hkz : ((k:Nat) : ℤ) = -p.2 := by rw [hk]; exact Int.toNat_of_nonneg (by omega)
    have hdy : dyadic p = (p.1 : ℚ) / 2^k := by
      unfold dyadic
      rw [div_eq_mul_inv]
      congr 1
      rw [← zpow_natCast (2:ℚ) k, hkz, zpow_neg, inv_inv]
    have h1 : (p.1 / 2^k) * 2^k ≤ p.1 := Nat.div_mul_le_self _ _
    have h2 : p.1 < (p.1 / 2^k + 1) * 2^k := lt_succ_quot_mul _ _ (by positivity)
    have hpow : (0:ℚ) < (2:ℚ)^k := by positivity
    constructor
    · rw [hdy, le_div_iff hpow]
      have hc := (Nat.cast_le (α := ℚ)).mpr h1
      push_cast at hc
      linarith [hc]
    · rw [hdy, div_lt_iff hpow]
      have hc := (Nat.cast_lt (α := ℚ)).mpr h2
      push_cast at hc
      linarith [hc]

theorem pyDim_bounds (d m : Nat) (hd : 0 < d) (hm : 2048 < m) (hdm : d ≤ m) :
    ((pyDim d m : Nat) : ℚ) ≤ (d:ℚ) * 2048 / m + 1/2^40 ∧
    (d:ℚ) * 2048 / m - 1 - 1/2^40 < ((pyDim d m : Nat) : ℚ) := by
  have hf := pyDim_floor d m
  have hc := pyProd_close d m hd hm hdm
  rw [abs_le] at hc
  exact ⟨by linarith [hf.1, hc.2], by linarith [hf.2, hc.1]⟩

theorem pyDim_le_2048 (d m : Nat) (hd : 0 < d) (hm : 2048 < m) (hdm : d ≤ m) :
    pyDim d m ≤ 2048 := by
  have hb := (pyDim_bounds d m hd hm hdm).1
  have hm0 : (0:ℚ) < (m:ℚ) := by exact_mod_cast (by omega : 0 < m)
  have hdm2 : (d:ℚ) ≤ (m:ℚ) := by exact_mod_cast hdm
  have hx : (d:ℚ)*2048/m ≤ 2048 := by
    rw [div_le_iff hm0]
    nlinarith [hdm2]
  have hlt : ((pyDim d m : Nat):ℚ) < 2049 := by linarith
  have hn : pyDim d m < 2049 := by exact_mod_cast hlt
  omega

theorem pyDim_self (m : Nat) (hm : 2048 < m) :
    2047 ≤ pyDim m m ∧ pyDim m m ≤ 2048 := by
  have hb := pyDim_bounds m m (by omega) hm le_rfl
  have hm0 : (0:ℚ) < (m:ℚ) := by exact_mod_cast (by omega : 0 < m)
  have hx : (m:ℚ) * 2048 / m = 2048 := by
    rw [mul_comm, mul_div_assoc, div_self (ne_of_gt hm0), mul_one]
  rw [hx] at hb
  constructor
  · have h1 : (2046:ℚ) < ((pyDim m m : Nat):ℚ) := by linarith [hb.2]
    have h1n : 2046 < pyDim m m := by exact_mod_cast h1
    omega
  · have h2 : ((pyDim m m : Nat):ℚ) < 2049 := by linarith [hb.1]
    have h2n : pyDim m m < 2049 := by exact_mod_cast h2
    omega

theorem resizeDims_main (w h : Nat) (hw : 0 < w) (hh : 0 < h) (hgt : max_size < max w h) :
    (2047 ≤ max (resizeDims w h).1 (resizeDims w h).2 ∧
     max (resizeDims w h).1 (resizeDims w h).2 ≤ 2048) ∧
    ((resizeDims w h).1 : ℚ) ≤ (w:ℚ) * 2048 / (max w h) + 1/2^40 ∧
    (w:ℚ) * 2048 / (max w h) - 1 - 1/2^40 < ((resizeDims w h).1 : ℚ) ∧
    ((resizeDims w h).2 : ℚ) ≤ (h:ℚ) * 2048 / (max w h) + 1/2^40 ∧
    (h:ℚ) * 2048 / (max w h) - 1 - 1/2^40 < ((resizeDims w h).2 : ℚ) := by
  have hgt2 : 2048 < max w h := hgt
  have h1 : (resizeDims w h).1 = pyDim w (max w h) := by
    unfold resizeDims
    rw [if_pos hgt]
  have h2 : (resizeDims w h).2 = pyDim h (max w h) := by
    unfold resizeDims
    rw [if_pos hgt]
  have hbw := pyDim_bounds w (max w h) hw hgt2 (le_max_left w h)
  have hbh := pyDim_bounds h (max w h) hh hgt2 (le_max_right w h)
  refine ⟨⟨?_, ?_⟩, ?_, ?_, ?_, ?_⟩
  · rcases max_choice w h with hmx | hmx
    · have hself : 2047 ≤ pyDim w (max w h) := by
        rw [hmx]
        exact (pyDim_self w (hmx ▸ hgt2)).1
      rw [h1]
      exact le_trans hself (le_max_left _ _)
    · have hself : 2047 ≤ pyDim h (max w h) := by
        rw [hmx]
        exact (pyDim_self h (hmx ▸ hgt2)).1
      rw [h2]
      exact le_trans hself (le_max_right _ _)
  · rw [h1, h2]
    exact max_le (pyDim_le_2048 w (max w h) hw hgt2 (le_max_left w h))
      (pyDim_le_2048 h (max w h) hh hgt2 (le_max_right w h))
  · rw [h1]; exact hbw.1
  · rw [h1]; exact hbw.2
  · rw [h2]; exact hbh.1
  · rw [h2]; exact hbh.2

/-! Claims about the image preprocessor. -/

set_option maxRecDepth 1000000 in
/-- C2 counterexample: the resize neither rounds to the nearest integer
pixel nor always makes the longer side exactly 2048.  At 4097 x 3000
the binary64 computation truncates the scaled height to 1499, while
rounding the exactly scaled height to the NEAREST integer, as the claim
states, gives 1500; and at a longer side of 2215 the binary64 ratio
rounds below 2048/2215, so int(2215 * (2048/2215)) is 2047, not 2048. -/
theorem resize_not_nearest_nor_exact :
    resizeDims 4097 3000 = (2048, 1499) ∧
    resizeDimsSpec 4097 3000 = (2048, 1500) ∧
    resizeDims 2215 1000 = (2047, 924) ∧
    (resizeDims 2215 1000).1 ≠ max_size := by
  refine ⟨by decide, by decide, by decide, by decide⟩

/-- C2 amended: for an image whose longer side exceeds 2048 px, the
code scales both dimensions by the SAME binary64 ratio 2048 over the
longer side and TRUNCATES each scaled dimension toward zero (the Python
int constructor), so each output dimension lies within one pixel (plus
a floating-point slack below 2 ^ -40) of the exact proportional value,
and the longer output side is 2047 or 2048 px: because of binary64
rounding it is NOT always exactly 2048. -/
theorem resize_float_behavior (img : PILImage)
    (hw : 0 < img.width) (hh : 0 < img.height)
    (hgt : max_size < max img.width img.height) :
    (2047 ≤ max (encodeImagePipeline img).width (encodeImagePipeline img).height ∧
     max (encodeImagePipeline img).width (encodeImagePipeline img).height ≤ 2048) ∧
    ((encodeImagePipeline img).width : ℚ)
      ≤ (img.width:ℚ) * 2048 / (max img.width img.height) + 1/2^40 ∧
    (img.width:ℚ) * 2048 / (max img.width img.height) - 1 - 1/2^40
      < ((encodeImagePipeline img).width : ℚ) ∧
    ((encodeImagePipeline img).height : ℚ)
      ≤ (img.height:ℚ) * 2048 / (max img.width img.height) + 1/2^40 ∧
    (img.height:ℚ) * 2048 / (max img.width img.height) - 1 - 1/2^40
      < ((encodeImagePipeline img).height : ℚ) := by
  obtain ⟨hcw, hch⟩ := convertMode_dims img
  have hpw : (encodeImagePipeline img).width = (resizeDims img.width img.height).1 := by
    show (resizeDims (convertMode img).width (convertMode img).height).1 = _
    rw [hcw, hch]
  have hph : (encodeImagePipeline img).height = (resizeDims img.width img.height).2 := by
    show (resizeDims (convertMode img).width (convertMode img).height).2 = _
    rw [hcw, hch]
  rw [hpw, hph]
  exact resizeDims_main img.width img.height hw hh hgt

/-- C2 witness: the amended resize theorem applied to a concrete
4096 x 1000 RGB image. -/
theorem resize_float_behavior_witness :
    (2047 ≤ max (encodeImagePipeline ⟨"RGB", 4096, 1000⟩).width
        (encodeImagePipeline ⟨"RGB", 4096, 1000⟩).height ∧
     max (encodeImagePipeline ⟨"RGB", 4096, 1000⟩).width
        (encodeImagePipeline ⟨"RGB", 4096, 1000⟩).height ≤ 2048) ∧
    ((encodeImagePipeline ⟨"RGB", 4096, 1000⟩).width : ℚ)
      ≤ ((4096:Nat):ℚ) * 2048 / ((max 4096 1000 : Nat) : ℚ) + 1/2^40 ∧
    ((4096:Nat):ℚ) * 2048 / ((max 4096 1000 : Nat) : ℚ) - 1 - 1/2^40
      < ((encodeImagePipeline ⟨"RGB", 4096, 1000⟩).width : ℚ) ∧
    ((encodeImagePipeline ⟨"RGB", 4096, 1000⟩).height : ℚ)
      ≤ ((1000:Nat):ℚ) * 2048 / ((max 4096 1000 : Nat) : ℚ) + 1/2^40 ∧
    ((1000:Nat):ℚ) * 2048 / ((max 4096 1000 : Nat) : ℚ) - 1 - 1/2^40
      < ((encodeImagePipeline ⟨"RGB", 4096, 1000⟩).height : ℚ) :=
  resize_float_behavior ⟨"RGB", 4096, 1000⟩ (by decide) (by decide) (by decide)

/-- C3 counterexample: mode LA carries an alpha channel and is not a
3-channel color model, yet the preprocessor leaves it unchanged, since
only RGBA and P are converted. -/
theorem mode_LA_not_converted :
    specAlphaCarrying "LA" = true ∧
    (encodeImagePipeline ⟨"LA", 100, 100⟩).mode = "LA" ∧
    specThreeChannel (encodeImagePipeline ⟨"LA", 100, 100⟩).mode = false := by
  refine ⟨by decide, by decide, by decide⟩

/-- C3 amended: the preprocessor converts exactly the modes RGBA and P
to the 3-channel model RGB before JPEG re-encoding; every other mode,
alpha-carrying LA included, passes through unchanged. -/
theorem mode_conversion_exactly_RGBA_P (img : PILImage) :
    ((img.mode = "RGBA" ∨ img.mode = "P") →
      (encodeImagePipeline img).mode = "RGB" ∧
      specThreeChannel (encodeImagePipeline img).mode = true) ∧
    (¬(img.mode = "RGBA" ∨ img.mode = "P") →
      (encodeImagePipeline img).mode = img.mode) := by
  have hpm : (encodeImagePipeline img).mode = (convertMode img).mode := rfl
  constructor
  · intro h
    have hmode : (encodeImagePipeline img).mode = "RGB" := by
      rw [hpm]; unfold convertMode; rw [if_pos h]
    exact ⟨hmode, by rw [hmode]; decide⟩
  · intro h
    rw [hpm]; unfold convertMode; rw [if_neg h]

/-- C3 witness: the amended mode theorem applied to a concrete RGBA
image (converted) and a concrete CMYK image (passed through). -/
theorem mode_conversion_exactly_RGBA_P_witness :
    (encodeImagePipeline ⟨"RGBA", 10, 10⟩).mode = "RGB" ∧
    specThreeChannel (encodeImagePipeline ⟨"RGBA", 10, 10⟩).mode = true ∧
    (encodeImagePipeline ⟨"CMYK", 10, 10⟩).mode = "CMYK" :=
  ⟨((mode_conversion_exactly_RGBA_P ⟨"RGBA", 10, 10⟩).1 (Or.inl rfl)).1,
   ((mode_conversion_exactly_RGBA_P ⟨"RGBA", 10, 10⟩).1 (Or.inl rfl)).2,
   (mode_conversion_exactly_RGBA_P ⟨"CMYK", 10, 10⟩).2 (by decide)⟩

/-- C6: when the longer side is at most 2048 px the preprocessor keeps
both dimensions unchanged. -/
theorem no_resize_below_threshold (img : PILImage)
    (hle : max img.width img.height ≤ max_size) :
    (encodeImagePipeline img).width = img.width ∧
    (encodeImagePipeline img).height = img.height := by
  obtain ⟨hcw, hch⟩ := convertMode_dims img
  have hpw : (encodeImagePipeline img).width = (resizeDims img.width img.height).1 := by
    show (resizeDims (convertMode img).width (convertMode img).height).1 = _
    rw [hcw, hch]
  have hph : (encodeImagePipeline img).height = (resizeDims img.width img.height).2 := by
    show (resizeDims (convertMode img).width (convertMode img).height).2 = _
    rw [hcw, hch]
  rw [hpw, hph]
  unfold resizeDims
  rw [if_neg (not_lt.mpr hle)]
  exact ⟨rfl, rfl⟩

/-- C6 witness: the no-resize theorem applied to a concrete 640 x 480
image. -/
theorem no_resize_below_threshold_witness :
    (encodeImagePipeline ⟨"RGB", 640, 480⟩).width = 640 ∧
    (encodeImagePipeline ⟨"RGB", 640, 480⟩).height = 480 :=
  no_resize_below_threshold ⟨"RGB", 640, 480⟩ (by decide)

/-! Claims about the adapter _run. -/

set_option maxRecDepth 100000 in
/-- C5: when the caller supplies no prompt (or an empty one), the
message sent to the model carries the default prompt, and the default
prompt enumerates food items with a descriptive name, an estimated
weight in grams and a confidence percentage, shows the documented line
format, and tells the model to omit items below 90 percent confidence. -/
theorem default_prompt_contract (b64 : String) :
    (requestMessage none b64).text = defaultPrompt ∧
    (requestMessage (some "") b64).text = defaultPrompt ∧
    containsSub defaultPrompt "identify all food items visible" ∧
    containsSub defaultPrompt "- Descriptive name" ∧
    containsSub defaultPrompt "- Estimated weight in grams" ∧
    containsSub defaultPrompt "- Confidence level (percentage)" ∧
    containsSub defaultPrompt "- watermelon chunks: 350g (95% confidence)" ∧
    containsSub defaultPrompt "- banana: 120g (90% confidence)" ∧
    containsSub defaultPrompt "Only include items where confidence is 90% or higher" := by
  refine ⟨rfl, rfl, ?_, ?_, ?_, ?_, ?_, ?_, ?_⟩ <;> decide

/-- C7: for a path that does not reference an existing file, _run
returns the not-found text as an ordinary result; the text ends with
the literal path, mentions that the file was not found, and no
exception escapes. -/
theorem not_found_returns_text (w : World) (path : String) (prompt : Option String)
    (h : w.fileExists path = false) :
    run w path prompt = .ok (notFoundMsg path) ∧
    notFoundMsg path = "Error: Image file not found at " ++ path ∧
    containsSub (notFoundMsg path) path ∧
    containsSub (notFoundMsg path) "not found" := by
  refine ⟨?_, rfl, ?_, ?_⟩
  · unfold run run_body
    rw [h]
    rfl
  · exact containsSub_append_self _ _
  · exact containsSub_append_left _ _ _ (by decide)

/-- C7 witness: the not-found theorem applied at a concrete missing
path. -/
theorem not_found_returns_text_witness :
    run wMissingFile "ghost.png" none = .ok (notFoundMsg "ghost.png") ∧
    notFoundMsg "ghost.png" = "Error: Image file not found at " ++ "ghost.png" ∧
    containsSub (notFoundMsg "ghost.png") "ghost.png" ∧
    containsSub (notFoundMsg "ghost.png") "not found" :=
  not_found_returns_text wMissingFile "ghost.png" none rfl

/-- Observable form of an adapter outcome: true exactly when the value
models an exception propagating to the caller of _run. -/
def raisesException : Except PyExc String → Bool
  | .ok _ => false
  | .error _ => true

/-- C8: a decode or encode failure inside _encode_image is re-raised as
the generic encoding-failed exception carrying the original message,
and _run converts it into the generic error text, so the caller of _run
receives an ordinary string that still contains the original message. -/
theorem encode_error_as_text (w : World) (path : String) (prompt : Option String)
    (msg : String)
    (hf : w.fileExists path = true) (he : w.decodeOutcome path = .error msg) :
    encode_image w path = .error (.genericError ("Failed to encode image: " ++ msg)) ∧
    run w path prompt = .ok ("Error analyzing image: " ++ ("Failed to encode image: " ++ msg)) ∧
    containsSub ("Error analyzing image: " ++ ("Failed to encode image: " ++ msg)) msg := by
  have henc : encode_image w path = .error (.genericError ("Failed to encode image: " ++ msg)) := by
    unfold encode_image; rw [he]
  refine ⟨henc, ?_, ?_⟩
  · unfold run run_body
    rw [hf, henc]
    rfl
  · rw [show "Error analyzing image: " ++ ("Failed to encode image: " ++ msg) =
        ("Error analyzing image: " ++ "Failed to encode image: ") ++ msg from
        (String.append_assoc _ _ _).symm]
    exact containsSub_append_self _ _

/-- C8 witness: the encoding-failure theorem applied to a concrete
world in which PIL cannot decode the file. -/
theorem encode_error_as_text_witness :
    encode_image wBadImage "pie.jpg" =
      .error (.genericError ("Failed to encode image: " ++ "cannot identify image file")) ∧
    run wBadImage "pie.jpg" none =
      .ok ("Error analyzing image: " ++ ("Failed to encode image: " ++ "cannot identify image file")) ∧
    containsSub ("Error analyzing image: " ++ ("Failed to encode image: " ++ "cannot identify image file"))
      "cannot identify image file" :=
  encode_error_as_text wBadImage "pie.jpg" none "cannot identify image file" rfl rfl

/-- C9: _run is total: whatever the filesystem, the credential state,
the decoding outcome and the model call produce, including the
missing-credential ValueError, the result is an ordinary string and no
exception reaches the caller. -/
theorem run_never_raises (w : World) (path : String) (prompt : Option String) :
    ∃ s : String, run w path prompt = .ok s := by
  unfold run
  cases hb : run_body w path prompt with
  | ok s => exact ⟨s, rfl⟩
  | error e =>
    cases e with
    | authError => exact ⟨authMsg, rfl⟩
    | rateLimitError => exact ⟨rateMsg, rfl⟩
    | valueError m => exact ⟨"Error analyzing image: " ++ m, rfl⟩
    | genericError m => exact ⟨"Error analyzing image: " ++ m, rfl⟩

/-- C10: the existence check runs first: on a nonexistent path the
result is the not-found text, and replacing the credential, the decoder
and the model oracle by anything else leaves the result unchanged, so
neither the credential nor the API is consulted. -/
theorem file_check_precedes_credentials (w : World) (key : Option String)
    (dec : String → Except String String)
    (cm : VisionMessage → Except PyExc (Option String))
    (path : String) (prompt : Option String)
    (h : w.fileExists path = false) :
    run { w with apiKey := key, decodeOutcome := dec, callModel := cm } path prompt
      = .ok (notFoundMsg path) ∧
    run { w with apiKey := key, decodeOutcome := dec, callModel := cm } path prompt
      = run w path prompt := by
  have hf : ({ w with apiKey := key, decodeOutcome := dec, callModel := cm } : World).fileExists path = false := h
  have h1 : run { w with apiKey := key, decodeOutcome := dec, callModel := cm } path prompt
      = .ok (notFoundMsg path) := by
    unfold run run_body
    rw [hf]
    rfl
  have h2 : run w path prompt = .ok (notFoundMsg path) := by
    unfold run run_body
    rw [h]
    rfl
  exact ⟨h1, h1.trans h2.symm⟩

/-- C10 witness: the file-check-first theorem applied at a concrete
missing path, with the credential removed and hostile decode and model
oracles substituted. -/
theorem file_check_precedes_credentials_witness :
    run wMissingHostile "ghost.png" none = .ok (notFoundMsg "ghost.png") ∧
    run wMissingHostile "ghost.png" none = run wMissingFile "ghost.png" none :=
  file_check_precedes_credentials wMissingFile none (fun _ => .error "boom")
    (fun _ => .error .authError) "ghost.png" none rfl

/-- C4: with an existing, decodable image and a usable credential, each
model-call failure is caught and mapped to its own error string, which
is returned as the ordinary text result; the three texts are pairwise
distinct, the generic text for every possible message. -/
theorem percall_errors_distinct_text (w : World) (path : String) (prompt : Option String)
    (b64 k : String)
    (hf : w.fileExists path = true)
    (he : w.decodeOutcome path = .ok b64)
    (hk : w.apiKey = some k) (hk0 : k ≠ "") :
    (w.callModel (requestMessage prompt b64) = .error .authError →
      run w path prompt = .ok authMsg) ∧
    (w.callModel (requestMessage prompt b64) = .error .rateLimitError →
      run w path prompt = .ok rateMsg) ∧
    (∀ m, w.callModel (requestMessage prompt b64) = .error (.genericError m) →
      run w path prompt = .ok ("Error analyzing image: " ++ m)) ∧
    authMsg ≠ rateMsg ∧
    (∀ m, "Error analyzing image: " ++ m ≠ authMsg) ∧
    (∀ m, "Error analyzing image: " ++ m ≠ rateMsg) := by
  have henc : encode_image w path = .ok b64 := by unfold encode_image; rw [he]
  have hcl : get_openai_client w.apiKey = .ok () := by
    rw [hk]
    simp only [get_openai_client]
    rw [if_neg hk0]
  have hauth : authMsg =
      "Error: " ++ "Invalid OpenAI API key. Please check your OPENAI_API_KEY environment variable." := by
    decide
  have hrate : rateMsg =
      "Error: " ++ "OpenAI API rate limit exceeded. Please try again later." := by
    decide
  refine ⟨?_, ?_, ?_, by decide, ?_, ?_⟩
  · intro hcall
    simp only [run, run_body, hf, henc, hcl, hcall, if_true]
  · intro hcall
    simp only [run, run_body, hf, henc, hcl, hcall, if_true]
  · intro m hcall
    simp only [run, run_body, hf, henc, hcl, hcall, if_true]
  · intro m
    rw [hauth]
    exact generic_ne_colon _ _
  · intro m
    rw [hrate]
    exact generic_ne_colon _ _

/-- C4 witness: the per-call error theorem applied to a concrete world
whose model call raises openai.AuthenticationError. -/
theorem percall_errors_distinct_text_witness :
    run wAuthFail "pie.jpg" none = .ok authMsg :=
  (percall_errors_distinct_text wAuthFail "pie.jpg" none "QUJDRA==" "sk-test"
    rfl rfl rfl (by decide)).1 rfl

/-- C1 counterexample: in a concrete world where the file exists and
decodes but OPENAI_API_KEY is absent, the ValueError raised inside the
try block of _run is caught by the final except clause, so _run does
not raise: it returns the generic per-call error text built from the
ValueError message. -/
theorem missing_key_not_raised :
    run_body wNoKey "photo.jpg" none =
      .error (.valueError "OPENAI_API_KEY environment variable is required") ∧
    run wNoKey "photo.jpg" none =
      .ok ("Error analyzing image: " ++ "OPENAI_API_KEY environment variable is required") ∧
    raisesException (run wNoKey "photo.jpg" none) = false := by
  exact ⟨rfl, rfl, rfl⟩

/-- C1 amended: when the file exists and decodes but OPENAI_API_KEY is
absent (or empty), _get_openai_client raises ValueError, _run catches
it, and _run returns the text built by the generic handler from the
ValueError message; that text differs from the authentication,
rate-limit and file-not-found error texts. -/
theorem run_missing_key_returns_config_text (w : World) (path : String)
    (prompt : Option String) (b64 : String)
    (hf : w.fileExists path = true)
    (he : w.decodeOutcome path = .ok b64)
    (hk : w.apiKey = none ∨ w.apiKey = some "") :
    run w path prompt =
      .ok ("Error analyzing image: " ++ "OPENAI_API_KEY environment variable is required") ∧
    "Error analyzing image: " ++ "OPENAI_API_KEY environment variable is required" ≠ authMsg ∧
    "Error analyzing image: " ++ "OPENAI_API_KEY environment variable is required" ≠ rateMsg ∧
    "Error analyzing image: " ++ "OPENAI_API_KEY environment variable is required" ≠ notFoundMsg path := by
  have henc : encode_image w path = .ok b64 := by unfold encode_image; rw [he]
  have hcl : get_openai_client w.apiKey =
      .error (.valueError "OPENAI_API_KEY environment variable is required") := by
    rcases hk with hk | hk
    · rw [hk]
      rfl
    · rw [hk]
      simp [get_openai_client]
  refine ⟨?_, ?_, ?_, ?_⟩
  · simp only [run, run_body, hf, henc, hcl, if_true]
  · rw [show authMsg =
      "Error: " ++ "Invalid OpenAI API key. Please check your OPENAI_API_KEY environment variable." from by decide]
    exact generic_ne_colon _ _
  · rw [show rateMsg =
      "Error: " ++ "OpenAI API rate limit exceeded. Please try again later." from by decide]
    exact generic_ne_colon _ _
  · unfold notFoundMsg
    rw [show ("Error: Image file not found at " : String) =
      "Error: " ++ "Image file not found at " from by decide]
    rw [String.append_assoc]
    exact generic_ne_colon _ _

/-- C1 witness for the amended statement: applied at the concrete
no-credential world. -/
theorem run_missing_key_returns_config_text_witness :
    run wNoKey "photo.jpg" none =
      .ok ("Error analyzing image: " ++ "OPENAI_API_KEY environment variable is required") ∧
    "Error analyzing image: " ++ "OPENAI_API_KEY environment variable is required" ≠ authMsg ∧
    "Error analyzing image: " ++ "OPENAI_API_KEY environment variable is required" ≠ rateMsg ∧
    "Error analyzing image: " ++ "OPENAI_API_KEY environment variable is required" ≠ notFoundMsg "photo.jpg" :=
  run_missing_key_returns_config_text wNoKey "photo.jpg" none "QUJDRA==" rfl rfl (Or.inl rfl)
